import Mathlib

/-!
Verification of the OVITO Python scripting layer against its specification.

The development shallowly embeds the Python code of the repository
(`src/plugins/pyscript/python/ovito/...`, `src/ovito/.../python/ovito/...`)
into Lean.  Pure functions become Lean functions, stateful code becomes
explicit state passing, fallible code returns `Except`.  Parts of the
program that live in the native (C++) engine, which is not part of the
repository, are modelled from the specification; every such definition
carries a doc comment starting with `Modelled from the spec:`.
-/

set_option maxHeartbeats 1000000
set_option maxRecDepth 4000

/-! ## Python exception model

Python's builtin exception hierarchy, restricted to the exception classes
raised by the embedded code.  In CPython, `KeyError` and `IndexError` are
subclasses of `LookupError`. -/

inductive PyExc where
  | valueError
  | keyError
  | indexError
  | typeError
  | lookupError
  | runtimeError (msg : String)
  | nameError (missing : String)
  | assertionError
deriving DecidableEq, Repr

/-- Whether an exception is an instance of Python's `LookupError`
(CPython: `KeyError` and `IndexError` derive from `LookupError`). -/
def PyExc.isLookupError : PyExc → Bool
  | .keyError => true
  | .indexError => true
  | .lookupError => true
  | _ => false

/-! ## C9: DataCollection.find / DataCollection.expect

Embedding of `find` and `expect` from
`src/src/plugins/pyscript/python/ovito/data/data_collection.py`.
A data object is modelled by its object id together with its runtime
class; `isinstance(obj, T)` is modelled by applying a subclass test to the
object's class (Python's `isinstance` accepts instances of `T` and of all
subclasses of `T`, which is captured by the `subclassOf` relation being
arbitrary). -/

structure DObj where
  oid : Nat
  cls : Nat
deriving DecidableEq, Repr

instance : Inhabited DObj := ⟨⟨0, 0⟩⟩

/-- Embedding of `DataCollection.find`: raises `ValueError` when the
requested type is not a `DataObject` subclass, otherwise returns the first
object in the `objects` list whose class satisfies the `isinstance` test. -/
def dc_find (isDataObjectSub : Nat → Bool) (subclassOf : Nat → Nat → Bool)
    (objects : List DObj) (ty : Nat) : Except PyExc (Option DObj) :=
  if isDataObjectSub ty = false then .error .valueError
  else .ok (objects.find? (fun o => subclassOf o.cls ty))

/-- Embedding of `DataCollection.expect`: calls `find` and raises
`KeyError` when it returns `None`. -/
def dc_expect (isDataObjectSub : Nat → Bool) (subclassOf : Nat → Nat → Bool)
    (objects : List DObj) (ty : Nat) : Except PyExc DObj :=
  match dc_find isDataObjectSub subclassOf objects ty with
  | .error e => .error e
  | .ok none => .error .keyError
  | .ok (some o) => .ok o

/-- `List.find?` returns the first element satisfying the predicate:
it is an element of the list at some position `n`, it satisfies the
predicate, and every earlier position fails the predicate. -/
theorem find?_first_spec {α : Type} (d : α) (p : α → Bool) :
    ∀ (l : List α) (o : α), l.find? p = some o →
      ∃ n, n < l.length ∧ l.getD n d = o ∧ p o = true ∧
        ∀ m, m < n → p (l.getD m d) = false := by
  intro l
  induction l with
  | nil => intro o h; simp [List.find?] at h
  | cons a t ih =>
    intro o h
    by_cases ha : p a = true
    · refine ⟨0, by simp, ?_, ?_, by omega⟩
      · simp only [List.find?, ha] at h
        simpa using h
      · simp only [List.find?, ha] at h
        cases h; exact ha
    · have ha' : p a = false := by simpa using ha
      simp only [List.find?, ha'] at h
      obtain ⟨n, hn, hget, hp, hmin⟩ := ih o h
      refine ⟨n + 1, by simpa using hn, by simpa using hget, hp, ?_⟩
      intro m hm
      cases m with
      | zero => simpa using ha'
      | succ m => simpa using hmin m (by omega)

/-- C9: `find(T)` returns the first object in the collection's `objects`
list that is an instance of `T` (or a subclass), or `None` when no such
object exists, and `expect(T)` returns exactly the object `find(T)` would
return, but fails with a `LookupError` (concretely a `KeyError`, which is
a `LookupError` subclass in Python) when `find(T)` would return `None`. -/
theorem dataCollection_find_expect_spec
    (isDataObjectSub : Nat → Bool) (subclassOf : Nat → Nat → Bool)
    (objects : List DObj) (ty : Nat) (hty : isDataObjectSub ty = true) :
    (∀ o, dc_find isDataObjectSub subclassOf objects ty = .ok (some o) →
      ∃ n, n < objects.length ∧ objects.getD n default = o ∧
        subclassOf o.cls ty = true ∧
        ∀ m, m < n → subclassOf (objects.getD m default).cls ty = false) ∧
    (dc_find isDataObjectSub subclassOf objects ty = .ok none ↔
      ∀ o ∈ objects, subclassOf o.cls ty = false) ∧
    (dc_find isDataObjectSub subclassOf objects ty = .ok none →
      dc_expect isDataObjectSub subclassOf objects ty = .error .keyError ∧
      PyExc.isLookupError .keyError = true) ∧
    (∀ o, dc_find isDataObjectSub subclassOf objects ty = .ok (some o) →
      dc_expect isDataObjectSub subclassOf objects ty = .ok o) := by
  have hfind : dc_find isDataObjectSub subclassOf objects ty =
      .ok (objects.find? (fun o => subclassOf o.cls ty)) := by
    simp [dc_find, hty]
  refine ⟨?_, ?_, ?_, ?_⟩
  · intro o h
    rw [hfind] at h
    have h' : objects.find? (fun o => subclassOf o.cls ty) = some o := by
      simpa using h
    exact find?_first_spec default _ objects o h'
  · rw [hfind]
    constructor
    · intro h o ho
      have h' : objects.find? (fun o => subclassOf o.cls ty) = none := by
        simpa using h
      have := List.find?_eq_none.mp h' o ho
      simpa using this
    · intro h
      have : objects.find? (fun o => subclassOf o.cls ty) = none :=
        List.find?_eq_none.mpr (fun o ho => by simp [h o ho])
      simp [this]
  · intro h
    refine ⟨?_, rfl⟩
    unfold dc_expect
    rw [h]
  · intro o h
    unfold dc_expect
    rw [h]

/-- Witness for C9 at a concrete collection: two objects, the second one
matching; `find` returns it and `expect` agrees. -/
theorem dataCollection_find_expect_witness :
    ((fun t => decide (t = 5)) 5 = true) ∧
    (dc_expect (fun t => decide (t = 5)) (fun c t => decide (c = t))
      [⟨0, 3⟩, ⟨1, 5⟩] 5 = .ok ⟨1, 5⟩) := by
  constructor
  · decide
  · have h := (dataCollection_find_expect_spec (fun t => decide (t = 5))
      (fun c t => decide (c = t)) [⟨0, 3⟩, ⟨1, 5⟩] 5 (by decide)).2.2.2
    exact h ⟨1, 5⟩ rfl

/-! ## C10: trailing-underscore lookup on PropertyContainer and DataObjectsDict

Embedding of `_PropertyContainer__getitem__` from
`src/src/plugins/stdobj/resources/python/ovito/data/stdobj/property_container.py`
and `DataObjectsDict.__getitem__` from
`src/src/ovito/pyscript/python/ovito/data/data_objects_dict.py`.

Python strings are embedded as lists of characters so that all string
operations compute inside the kernel: `key.endswith('_')` becomes a test
on the last character and `key[:-1]` becomes `List.dropLast`. -/

abbrev PyStr := List Char

/-- Python `key.endswith('_')` on a character-list string. -/
def endsWithUnderscore (s : PyStr) : Bool := s.getLast? == some '_'

structure PropEntry where
  pname : PyStr
  pid : Nat
deriving DecidableEq, Repr

/-- A handle returned by a dictionary-style lookup: either a read-only
reference to the stored object or the mutable version obtained via the
native `make_mutable` call. -/
inductive Handle where
  | readonly (p : PropEntry)
  | mutableHandle (p : PropEntry)
deriving DecidableEq, Repr

structure PContainerView where
  props : List PropEntry
  isSafeToModify : Bool
deriving DecidableEq, Repr

/-- Embedding of `_PropertyContainer__getitem__`: a key with a trailing
underscore requests a mutable property; the container must itself be safe
to modify, the underscore is stripped (`key = key[:-1]`), and the found
property is returned through `make_mutable`.  A missing name raises
`KeyError`. -/
def containerGetItem (c : PContainerView) (key : PyStr) : Except PyExc Handle :=
  if endsWithUnderscore key then
    if c.isSafeToModify = false then .error .valueError
    else
      match c.props.find? (fun p => p.pname == key.dropLast) with
      | some p => .ok (.mutableHandle p)
      | none => .error .keyError
  else
    match c.props.find? (fun p => p.pname == key) with
    | some p => .ok (.readonly p)
    | none => .error .keyError

/-- An entry of a `DataObjectsDict` view: the object's identifier together
with the result of the `isinstance(obj, data_object_class)` test performed
by the view. -/
structure DictEntry where
  identifier : PyStr
  isMatch : Bool
deriving DecidableEq, Repr

/-- A handle returned by `DataObjectsDict.__getitem__`. -/
inductive DictHandle where
  | readonly (e : DictEntry)
  | mutableHandle (e : DictEntry)
deriving DecidableEq, Repr

/-- Embedding of `DataObjectsDict.__getitem__`: same trailing-underscore
convention, guarded by `self._data.is_safe_to_modify` of the owning data
collection, returning `self._data.make_mutable(obj)` for the found
object. -/
def dataObjectsDictGetItem (objects : List DictEntry) (collSafeToModify : Bool)
    (key : PyStr) : Except PyExc DictHandle :=
  if endsWithUnderscore key then
    if collSafeToModify = false then .error .valueError
    else
      match objects.find? (fun e => e.isMatch && e.identifier == key.dropLast) with
      | some e => .ok (.mutableHandle e)
      | none => .error .keyError
  else
    match objects.find? (fun e => e.isMatch && e.identifier == key) with
    | some e => .ok (.readonly e)
    | none => .error .keyError

/-- C10: for a key ending in a trailing underscore, both dictionary views
strip the underscore; an owner that is not safe to modify yields a
`ValueError` and never a handle, a found object is returned as the mutable
version, and a missing name yields a `KeyError`. -/
theorem underscore_lookup_spec (c : PContainerView) (objects : List DictEntry)
    (collSafe : Bool) (key : PyStr) (hkey : endsWithUnderscore key = true) :
    (c.isSafeToModify = false → containerGetItem c key = .error .valueError) ∧
    (c.isSafeToModify = true →
      (∀ p, c.props.find? (fun p => p.pname == key.dropLast) = some p →
        containerGetItem c key = .ok (.mutableHandle p)) ∧
      (c.props.find? (fun p => p.pname == key.dropLast) = none →
        containerGetItem c key = .error .keyError)) ∧
    (∀ p, containerGetItem c key ≠ .ok (.readonly p)) ∧
    (c.isSafeToModify = false → ∀ h, containerGetItem c key ≠ .ok h) ∧
    (collSafe = false →
      dataObjectsDictGetItem objects collSafe key = .error .valueError ∧
      ∀ h, dataObjectsDictGetItem objects collSafe key ≠ .ok h) ∧
    (collSafe = true →
      (∀ e, objects.find? (fun e => e.isMatch && e.identifier == key.dropLast) = some e →
        dataObjectsDictGetItem objects collSafe key = .ok (.mutableHandle e)) ∧
      (objects.find? (fun e => e.isMatch && e.identifier == key.dropLast) = none →
        dataObjectsDictGetItem objects collSafe key = .error .keyError)) := by
  refine ⟨?_, ?_, ?_, ?_, ?_, ?_⟩
  · intro hsafe
    simp [containerGetItem, hkey, hsafe]
  · intro hsafe
    constructor
    · intro p hp
      simp [containerGetItem, hkey, hsafe, hp]
    · intro hp
      simp [containerGetItem, hkey, hsafe, hp]
  · intro p
    unfold containerGetItem
    rw [if_pos hkey]
    by_cases hsafe : c.isSafeToModify = false
    · simp [hsafe]
    · rw [if_neg hsafe]
      cases hfind : c.props.find? (fun p => p.pname == key.dropLast) <;> simp
  · intro hsafe h
    simp [containerGetItem, hkey, hsafe]
  · intro hsafe
    refine ⟨by simp [dataObjectsDictGetItem, hkey, hsafe], ?_⟩
    intro h
    simp [dataObjectsDictGetItem, hkey, hsafe]
  · intro hsafe
    constructor
    · intro e he
      simp [dataObjectsDictGetItem, hkey, hsafe, he]
    · intro he
      simp [dataObjectsDictGetItem, hkey, hsafe, he]

/-- Witness for C10 at concrete inputs: the key `"Pos_"` ends in an
underscore; on an unmodifiable container the lookup raises `ValueError`,
and on a modifiable container holding `"Pos"` it returns the mutable
handle. -/
theorem underscore_lookup_witness :
    (endsWithUnderscore ['P', 'o', 's', '_'] = true) ∧
    (containerGetItem ⟨[⟨['P', 'o', 's'], 7⟩], false⟩ ['P', 'o', 's', '_'] =
      .error .valueError) ∧
    (containerGetItem ⟨[⟨['P', 'o', 's'], 7⟩], true⟩ ['P', 'o', 's', '_'] =
      .ok (.mutableHandle ⟨['P', 'o', 's'], 7⟩)) := by
  refine ⟨by decide, ?_, ?_⟩
  · exact (underscore_lookup_spec ⟨[⟨['P', 'o', 's'], 7⟩], false⟩ [] false
      ['P', 'o', 's', '_'] (by decide)).1 rfl
  · exact ((underscore_lookup_spec ⟨[⟨['P', 'o', 's'], 7⟩], true⟩ [] false
      ['P', 'o', 's', '_'] (by decide)).2.1 rfl).1 ⟨['P', 'o', 's'], 7⟩ (by decide)

/-! ## C3: Pipeline.compute error propagation

Embedding of `_Pipeline_compute` from
`src/src/plugins/pyscript/python/ovito/pipeline/pipeline_class.py`.
The native `Pipeline.evaluate_pipeline(time)` call is abstracted as a
function from animation times to pipeline flow states; the Python wrapper
inspects the resulting status. -/

/-- The `PipelineStatus.Type` enumeration. -/
inductive StatusType where
  | success
  | warning
  | error
  | pending
deriving DecidableEq, Repr

structure PipelineStatus where
  stype : StatusType
  text : String
deriving DecidableEq, Repr

/-- The state produced by a pipeline evaluation: a status plus the
resulting data collection (abstracted as an id). -/
structure PipelineFlowState where
  status : PipelineStatus
  mutableData : Nat
deriving DecidableEq, Repr

/-- Embedding of `_Pipeline_compute`: evaluates the pipeline at the given
time, raises `RuntimeError` with the failing status text when the status
type is `Error`, asserts that the status is not `Pending`, and otherwise
returns `state.mutable_data`. -/
def pipelineCompute (evaluatePipeline : Int → PipelineFlowState)
    (time : Int) : Except PyExc Nat :=
  let state := evaluatePipeline time
  if state.status.stype = .error then
    .error (.runtimeError ("Data pipeline evaluation failed: " ++ state.status.text))
  else if state.status.stype = .pending then
    .error .assertionError
  else
    .ok state.mutableData

/-- C3: for every pipeline evaluation function and every animation time,
when the evaluation ends with a status of type `Error`, `compute` raises a
`RuntimeError` whose message contains the failing status text; when the
evaluation ends with a non-`Error` status (`Pending` means the evaluation
has not ended, and is excluded by the function's own assertion), `compute`
returns the resulting data collection. -/
theorem pipeline_compute_spec (evaluatePipeline : Int → PipelineFlowState)
    (time : Int) :
    ((evaluatePipeline time).status.stype = .error →
      ∃ pre, pipelineCompute evaluatePipeline time =
        .error (.runtimeError (pre ++ (evaluatePipeline time).status.text))) ∧
    ((evaluatePipeline time).status.stype ≠ .error →
      (evaluatePipeline time).status.stype ≠ .pending →
      pipelineCompute evaluatePipeline time =
        .ok (evaluatePipeline time).mutableData) := by
  constructor
  · intro herr
    exact ⟨"Data pipeline evaluation failed: ", by simp [pipelineCompute, herr]⟩
  · intro herr hpend
    simp [pipelineCompute, herr, hpend]

/-- Witness for C3 at a concrete evaluation function: the error case
produces the `RuntimeError` and the success case returns the data. -/
theorem pipeline_compute_witness :
    (((fun _ : Int => PipelineFlowState.mk ⟨.error, "stage failed"⟩ 4) 0).status.stype
        = StatusType.error) ∧
    (∃ pre, pipelineCompute (fun _ => ⟨⟨.error, "stage failed"⟩, 4⟩) 0 =
      .error (.runtimeError (pre ++ "stage failed"))) ∧
    (pipelineCompute (fun _ => ⟨⟨.success, ""⟩, 9⟩) 0 = .ok 9) := by
  refine ⟨rfl, ?_, ?_⟩
  · exact (pipeline_compute_spec (fun _ => ⟨⟨.error, "stage failed"⟩, 4⟩) 0).1 rfl
  · exact (pipeline_compute_spec (fun _ => ⟨⟨.success, ""⟩, 9⟩) 0).2
      (by simp) (by simp)

/-! ## C4: Pipeline.modifiers list editing

Embedding of `PipelineModifierList.__delitem__`, `insert` and `append`
from `src/src/plugins/pyscript/python/ovito/pipeline/pipeline_class.py`.

The pipeline's `data_provider` is either the data source or the tail of a
singly linked chain of `ModifierApplication` nodes, each holding a
modifier and an `input` pointer.  `_modifierList` walks the chain from the
tail and builds the list head-first, so list position `j` corresponds to
chain depth `k - 1 - j` (depth `0` being the tail / `data_provider`).
Modifiers are abstracted as numeric ids. -/

inductive Provider where
  | src
  | modApp (m : Nat) (inp : Provider)
deriving DecidableEq, Repr

/-- Embedding of `PipelineModifierList._modifierList`: the observed
modifier sequence, head of the pipeline first. -/
def modifierList : Provider → List Nat
  | .src => []
  | .modApp m inp => modifierList inp ++ [m]

/-- The pointer surgery `modapplist[index+1].input = modapplist[index].input`
(and, at depth 0, `self.pipeline.data_provider = modapplist[-1].input`):
unlinks the chain node at the given depth from the tail. -/
def removeAtDepth : Provider → Nat → Provider
  | .modApp _ inp, 0 => inp
  | .modApp m inp, d + 1 => .modApp m (removeAtDepth inp d)
  | .src, _ => .src

/-- The pointer surgery `modapp.input = modapplist[index].input;`
`modapplist[index].input = modapp`: splices a new node in as the input of
the chain node at the given depth from the tail. -/
def insertBelow : Provider → Nat → Nat → Provider
  | .modApp mm inp, 0, m => .modApp mm (.modApp m inp)
  | .modApp mm inp, d + 1, m => .modApp mm (insertBelow inp d m)
  | .src, _, _ => .src

/-- Embedding of `PipelineModifierList.__delitem__` for integer indices:
negative indices are shifted by the length, the tail is removed by
re-pointing `data_provider`, an interior node is removed by re-pointing
its successor's `input`, and any other index raises `IndexError`. -/
def delItem (p : Provider) (index : Int) : Except PyExc Provider :=
  let k : Int := (modifierList p).length
  let idx := if index < 0 then index + k else index
  if idx = k - 1 ∧ 0 ≤ idx then
    .ok (removeAtDepth p 0)
  else if idx < k - 1 ∧ 0 ≤ idx then
    .ok (removeAtDepth p (k - 1 - idx).toNat)
  else
    .error .indexError

/-- Embedding of `PipelineModifierList.insert` for integer indices.  The
branch for `index == len(modapplist)` evaluates `modapplist[-1]`, which on
an empty Python list raises `IndexError`; on a non-empty list it appends
the new node at the tail.  The other branch splices the node in front of
the node at the given list position. -/
def insertItem (p : Provider) (index : Int) (m : Nat) : Except PyExc Provider :=
  let k : Int := (modifierList p).length
  let idx := if index < 0 then index + k else index
  if idx = k ∧ 0 ≤ idx then
    match p with
    | .src => .error .indexError
    | .modApp mm inp => .ok (.modApp m (.modApp mm inp))
  else if idx ≤ k - 1 ∧ 0 ≤ idx then
    .ok (insertBelow p (k - 1 - idx).toNat m)
  else
    .error .indexError

/-- Embedding of `PipelineModifierList.append`: the new node's `input` is
the current `data_provider` and the node becomes the new tail. -/
def appendItem (p : Provider) (m : Nat) : Provider := .modApp m p

/-- Reference semantics of the Python list edit `del l[i]` for `0 ≤ i`. -/
def listDelAt {α : Type} : List α → Nat → List α
  | [], _ => []
  | _ :: t, 0 => t
  | a :: t, n + 1 => a :: listDelAt t n

/-- Reference semantics of the Python list edit `l.insert(i, a)` for
`0 ≤ i ≤ len(l)`. -/
def listInsertAt {α : Type} : List α → Nat → α → List α
  | l, 0, a => a :: l
  | [], _ + 1, a => [a]
  | b :: t, n + 1, a => b :: listInsertAt t n a

theorem listDelAt_append_last {α : Type} (l : List α) (a : α) :
    listDelAt (l ++ [a]) l.length = l := by
  induction l with
  | nil => rfl
  | cons b t ih => simpa [listDelAt] using ih

theorem listDelAt_append_lt {α : Type} (l : List α) (a : α) (j : Nat)
    (hj : j < l.length) : listDelAt (l ++ [a]) j = listDelAt l j ++ [a] := by
  induction l generalizing j with
  | nil => simp at hj
  | cons b t ih =>
    cases j with
    | zero => rfl
    | succ j =>
      have : j < t.length := by simpa using hj
      simp [listDelAt, ih j this]

theorem listInsertAt_length {α : Type} (l : List α) (a : α) :
    listInsertAt l l.length a = l ++ [a] := by
  induction l with
  | nil => rfl
  | cons b t ih => simpa [listInsertAt] using ih

theorem listInsertAt_append_le {α : Type} (l : List α) (a b : α) (j : Nat)
    (hj : j ≤ l.length) :
    listInsertAt (l ++ [b]) j a = listInsertAt l j a ++ [b] := by
  induction l generalizing j with
  | nil =>
    have hj0 : j = 0 := by simpa using hj
    subst hj0
    rfl
  | cons c t ih =>
    cases j with
    | zero => rfl
    | succ j =>
      have : j ≤ t.length := by simpa using hj
      simp [listInsertAt, ih j this]

theorem modifierList_removeAtDepth (p : Provider) (d : Nat)
    (hd : d < (modifierList p).length) :
    modifierList (removeAtDepth p d) =
      listDelAt (modifierList p) ((modifierList p).length - 1 - d) := by
  induction p generalizing d with
  | src => simp [modifierList] at hd
  | modApp m inp ih =>
    cases d with
    | zero =>
      simp only [removeAtDepth, modifierList]
      rw [show (modifierList inp ++ [m]).length - 1 - 0 =
        (modifierList inp).length by simp]
      exact (listDelAt_append_last (modifierList inp) m).symm
    | succ d =>
      have hd' : d < (modifierList inp).length := by
        simp only [modifierList] at hd
        simpa using Nat.lt_of_succ_lt_succ (by simpa using hd)
      simp only [removeAtDepth, modifierList, ih d hd']
      have hpos : (modifierList inp).length - 1 - d < (modifierList inp).length := by
        omega
      rw [show (modifierList inp ++ [m]).length - 1 - (d + 1) =
        (modifierList inp).length - 1 - d by simp; omega]
      exact (listDelAt_append_lt (modifierList inp) m _ hpos).symm

theorem modifierList_insertBelow (p : Provider) (d : Nat) (m : Nat)
    (hd : d < (modifierList p).length) :
    modifierList (insertBelow p d m) =
      listInsertAt (modifierList p) ((modifierList p).length - 1 - d) m := by
  induction p generalizing d with
  | src => simp [modifierList] at hd
  | modApp mm inp ih =>
    cases d with
    | zero =>
      simp only [insertBelow, modifierList]
      rw [show (modifierList inp ++ [mm]).length - 1 - 0 =
        (modifierList inp).length by simp]
      rw [listInsertAt_append_le (modifierList inp) m mm _ le_rfl,
        listInsertAt_length]
    | succ d =>
      have hd' : d < (modifierList inp).length := by
        simp only [modifierList] at hd
        simpa using Nat.lt_of_succ_lt_succ (by simpa using hd)
      simp only [insertBelow, modifierList, ih d hd']
      rw [show (modifierList inp ++ [mm]).length - 1 - (d + 1) =
        (modifierList inp).length - 1 - d by simp; omega]
      rw [listInsertAt_append_le (modifierList inp) m mm _ (by omega)]

theorem modifierList_eq_nil_iff (p : Provider) :
    modifierList p = [] ↔ p = .src := by
  cases p with
  | src => simp [modifierList]
  | modApp m inp => simp [modifierList]

/-- C4 counterexample: on an empty modifier chain (`k = 0`), the claim
asserts that `insert(0, m)` places `m` at position `0`; the code instead
evaluates `modapplist[-1]` on an empty Python list and raises
`IndexError`, so the call never succeeds. -/
theorem modifier_chain_insert_empty_counterexample :
    insertItem Provider.src 0 7 = .error .indexError ∧
    ∀ q, insertItem Provider.src 0 7 ≠ .ok q := by
  constructor
  · rfl
  · intro q h
    rw [show insertItem Provider.src 0 7 = .error .indexError from rfl] at h
    cases h

/-- C4 (amended): on a chain holding `k` modifiers, `del modifiers[i]`
with `0 ≤ i < k` removes exactly the `i`-th modifier preserving the order
of the rest, `insert(i, m)` with `0 ≤ i ≤ k` places `m` at position `i`
provided the chain is non-empty (`k ≥ 1`), while on an empty chain
(`k = 0`) `insert(0, m)` raises `IndexError` (append must be used
instead); `append(m)` places `m` at position `k`, including on an empty
chain; indices outside these ranges raise `IndexError`. -/
theorem modifier_chain_edit_spec (p : Provider) (i : Nat) (m : Nat) :
    (i < (modifierList p).length →
      ∃ q, delItem p (i : Int) = .ok q ∧
        modifierList q = listDelAt (modifierList p) i) ∧
    ((modifierList p).length ≤ i → delItem p (i : Int) = .error .indexError) ∧
    (1 ≤ (modifierList p).length → i ≤ (modifierList p).length →
      ∃ q, insertItem p (i : Int) m = .ok q ∧
        modifierList q = listInsertAt (modifierList p) i m) ∧
    ((modifierList p).length = 0 → insertItem p 0 m = .error .indexError) ∧
    ((modifierList p).length < i → insertItem p (i : Int) m = .error .indexError) ∧
    (modifierList (appendItem p m) = modifierList p ++ [m]) := by
  have hidx : (if (i : Int) < 0 then (i : Int) + ((modifierList p).length : Int)
      else (i : Int)) = (i : Int) := by
    rw [if_neg]
    omega
  refine ⟨?_, ?_, ?_, ?_, ?_, ?_⟩
  · intro hik
    unfold delItem
    dsimp only
    rw [hidx]
    split_ifs with h1 h2
    · refine ⟨removeAtDepth p 0, rfl, ?_⟩
      have hi : i = (modifierList p).length - 1 := by omega
      rw [modifierList_removeAtDepth p 0 (by omega)]
      rw [hi]
      norm_num
    · refine ⟨removeAtDepth p (((modifierList p).length : Int) - 1 - (i : Int)).toNat,
        rfl, ?_⟩
      have ht : (((modifierList p).length : Int) - 1 - (i : Int)).toNat =
          (modifierList p).length - 1 - i := by omega
      rw [ht, modifierList_removeAtDepth p _ (by omega)]
      have : (modifierList p).length - 1 - ((modifierList p).length - 1 - i) = i := by
        omega
      rw [this]
    · exfalso
      omega
  · intro hik
    unfold delItem
    dsimp only
    rw [hidx]
    split_ifs with h1 h2
    · exfalso; omega
    · exfalso; omega
    · rfl
  · intro hk hik
    unfold insertItem
    dsimp only
    rw [hidx]
    split_ifs with h1 h2
    · cases p with
      | src => simp [modifierList] at hk
      | modApp mm inp =>
        refine ⟨.modApp m (.modApp mm inp), rfl, ?_⟩
        have hi : i = (modifierList (Provider.modApp mm inp)).length := by omega
        rw [hi, listInsertAt_length]
        simp [modifierList]
    · refine ⟨insertBelow p (((modifierList p).length : Int) - 1 - (i : Int)).toNat m,
        rfl, ?_⟩
      have ht : (((modifierList p).length : Int) - 1 - (i : Int)).toNat =
          (modifierList p).length - 1 - i := by omega
      rw [ht, modifierList_insertBelow p _ m (by omega)]
      have : (modifierList p).length - 1 - ((modifierList p).length - 1 - i) = i := by
        omega
      rw [this]
    · exfalso
      omega
  · intro hk
    have hp : p = .src := (modifierList_eq_nil_iff p).mp (by
      cases hml : modifierList p with
      | nil => rfl
      | cons a t => rw [hml] at hk; simp at hk)
    subst hp
    rfl
  · intro hik
    unfold insertItem
    dsimp only
    rw [hidx]
    split_ifs with h1 h2
    · exfalso; omega
    · exfalso; omega
    · rfl
  · simp [appendItem, modifierList]

/-- Witness for C4 (amended) on the concrete two-modifier chain
`[1, 2]`: deleting index 1 yields `[1]` and inserting 9 at index 1 yields
`[1, 9, 2]`. -/
theorem modifier_chain_edit_witness :
    (1 < (modifierList (Provider.modApp 2 (Provider.modApp 1 .src))).length) ∧
    (∃ q, delItem (Provider.modApp 2 (Provider.modApp 1 .src)) 1 = .ok q ∧
      modifierList q =
        listDelAt (modifierList (Provider.modApp 2 (Provider.modApp 1 .src))) 1) ∧
    (∃ q, insertItem (Provider.modApp 2 (Provider.modApp 1 .src)) 1 9 = .ok q ∧
      modifierList q =
        listInsertAt (modifierList (Provider.modApp 2 (Provider.modApp 1 .src))) 1 9) := by
  refine ⟨by decide, ?_, ?_⟩
  · exact (modifier_chain_edit_spec (Provider.modApp 2 (Provider.modApp 1 .src)) 1 9).1
      (by decide)
  · exact (modifier_chain_edit_spec (Provider.modApp 2 (Provider.modApp 1 .src)) 1 9).2.2.1
      (by decide) (by decide)

/-! ## C1: DataCollection.copy_if_needed (copy-on-write)

Embedding of `copy_if_needed` from
`src/src/plugins/pyscript/python/ovito/data/data_collection.py`.
Data objects are identified by numeric ids; a world holds the `objects`
lists of all live `DataCollection`s plus a heap assigning each object id
its (abstracted, scalar) value.  A collection's handle to an object reads
the heap at the object's id. -/

structure World where
  colls : List (List Nat)
  heap : Nat → Int

/-- Modelled from the spec: `DataObject.num_strong_references` is a native
attribute; per the specification, every DataObject carries a reference
count of the number of DataCollections currently holding it. -/
def strongRefs (w : World) (o : Nat) : Nat :=
  w.colls.countP (fun l => decide (o ∈ l))

/-- The largest object id present in any collection of the world. -/
def maxId (w : World) : Nat := w.colls.flatten.foldr max 0

/-- Modelled from the spec: `CloneHelper().clone(obj, deepcopy)` is
native; per the specification it produces an exact copy of the object —
a fresh object id, not yet held by any collection, whose heap value equals
the original's. -/
def cloneObj (w : World) (o : Nat) : World × Nat :=
  let f := maxId w + 1
  ({ w with heap := Function.update w.heap f (w.heap o) }, f)

/-- Embedding of `DataCollection.copy_if_needed`: raises `ValueError` if
the object is not part of the collection, returns the object unchanged
when its strong reference count is at most 1, and otherwise substitutes a
clone at the object's position in the `objects` list and returns the
clone. -/
def copy_if_needed (w : World) (c : Nat) (o : Nat) : Except PyExc (World × Nat) :=
  let objs := w.colls.getD c []
  if o ∉ objs then .error .valueError
  else if strongRefs w o ≤ 1 then .ok (w, o)
  else
    let idx := objs.indexOf o
    let wf := cloneObj w o
    .ok ({ wf.1 with colls := wf.1.colls.set c (objs.set idx wf.2) }, wf.2)

/-- In-place mutation of the object with the given id. -/
def mutate (w : World) (o : Nat) (v : Int) : World :=
  { w with heap := Function.update w.heap o v }

theorem le_foldr_max (l : List Nat) (x : Nat) (hx : x ∈ l) :
    x ≤ l.foldr max 0 := by
  induction l with
  | nil => simp at hx
  | cons a t ih =>
    rcases List.mem_cons.mp hx with h | h
    · subst h; simp [List.foldr]
    · exact le_trans (ih h) (by simp [List.foldr])

theorem maxId_lt_fresh (w : World) (l : List Nat) (hl : l ∈ w.colls)
    (x : Nat) (hx : x ∈ l) : x < maxId w + 1 := by
  have : x ∈ w.colls.flatten := List.mem_flatten.mpr ⟨l, hl, hx⟩
  exact Nat.lt_succ_of_le (le_foldr_max _ x this)

theorem getD_list_mem (L : List (List Nat)) (c : Nat) (hc : c < L.length) :
    L.getD c [] ∈ L := by
  induction L generalizing c with
  | nil => simp at hc
  | cons a t ih =>
    cases c with
    | zero => simp
    | succ c =>
      have : c < t.length := by simpa using hc
      simpa [List.getD] using List.mem_cons_of_mem a (by
        simpa [List.getD] using ih c this)

theorem getD_set_self (L : List (List Nat)) (c : Nat) (x : List Nat)
    (hc : c < L.length) : (L.set c x).getD c [] = x := by
  induction L generalizing c with
  | nil => simp at hc
  | cons a t ih =>
    cases c with
    | zero => rfl
    | succ c => simpa [List.getD] using ih c (by simpa using hc)

theorem getD_set_ne (L : List (List Nat)) (c b : Nat) (x : List Nat)
    (hbc : b ≠ c) : (L.set c x).getD b [] = L.getD b [] := by
  induction L generalizing c b with
  | nil => simp
  | cons a t ih =>
    cases c with
    | zero =>
      cases b with
      | zero => exact absurd rfl hbc
      | succ b => rfl
    | succ c =>
      cases b with
      | zero => rfl
      | succ b => simpa [List.getD] using ih c b (by omega)

theorem countP_pos_of_getD (L : List (List Nat)) (p : List Nat → Bool)
    (i : Nat) (hi : i < L.length) (hp : p (L.getD i []) = true) :
    1 ≤ L.countP p := by
  induction L generalizing i with
  | nil => simp at hi
  | cons a t ih =>
    cases i with
    | zero =>
      have : p a = true := hp
      simp [List.countP_cons, this]
    | succ i =>
      have h1 := ih i (by simpa using hi) (by simpa [List.getD] using hp)
      simp only [List.countP_cons]
      omega

theorem countP_two_of_getD (L : List (List Nat)) (p : List Nat → Bool)
    (i j : Nat) (hi : i < L.length) (hj : j < L.length) (hij : i ≠ j)
    (hpi : p (L.getD i []) = true) (hpj : p (L.getD j []) = true) :
    2 ≤ L.countP p := by
  induction L generalizing i j with
  | nil => simp at hi
  | cons a t ih =>
    cases i with
    | zero =>
      cases j with
      | zero => exact absurd rfl hij
      | succ j =>
        have : p a = true := hpi
        have h1 := countP_pos_of_getD t p j (by simpa using hj)
          (by simpa [List.getD] using hpj)
        simp only [List.countP_cons, this, if_true]
        omega
    | succ i =>
      cases j with
      | zero =>
        have : p a = true := hpj
        have h1 := countP_pos_of_getD t p i (by simpa using hi)
          (by simpa [List.getD] using hpi)
        simp only [List.countP_cons, this, if_true]
        omega
      | succ j =>
        have h2 := ih i j (by simpa using hi) (by simpa using hj) (by omega)
          (by simpa [List.getD] using hpi) (by simpa [List.getD] using hpj)
        simp only [List.countP_cons]
        omega

theorem countP_set_of_none (L : List (List Nat)) (p : List Nat → Bool)
    (c : Nat) (x : List Nat) (hc : c < L.length)
    (hnone : ∀ l ∈ L, p l = false) :
    (L.set c x).countP p = if p x then 1 else 0 := by
  induction L generalizing c with
  | nil => simp at hc
  | cons a t ih =>
    cases c with
    | zero =>
      have hta : ∀ l ∈ t, p l = false := fun l hl => hnone l (List.mem_cons_of_mem a hl)
      have ht : t.countP p = 0 := by
        rw [List.countP_eq_zero]
        intro l hl
        simp [hta l hl]
      simp only [List.set, List.countP_cons, ht]
      by_cases hx : p x
      · simp [hx]
      · simp [hx]
    | succ c =>
      have hta : ∀ l ∈ t, p l = false := fun l hl => hnone l (List.mem_cons_of_mem a hl)
      have hpa : p a = false := hnone a (List.mem_cons_self a t)
      simp only [List.set, List.countP_cons, hpa,
        ih c (by simpa using hc) hta]
      simp

theorem mem_set_self (l : List Nat) (i a : Nat) (hi : i < l.length) :
    a ∈ l.set i a := by
  induction l generalizing i with
  | nil => simp at hi
  | cons b t ih =>
    cases i with
    | zero => simp
    | succ i => simpa using Or.inr (ih i (by simpa using hi))

/-- C1: `copy_if_needed(obj)` returns `obj` itself when the collection is
the sole owner (strong reference count at most 1) — in which case no other
collection holds the object at all — and otherwise returns a fresh clone
that has been substituted for `obj` at `obj`'s position in the `objects`
list, is exclusively owned (strong reference count exactly 1), carries the
same value, and whose subsequent mutation never changes the value observed
through any other collection's handle to the original object. -/
theorem copy_if_needed_spec (w : World) (c o : Nat)
    (hc : c < w.colls.length) (ho : o ∈ w.colls.getD c []) :
    (strongRefs w o ≤ 1 →
      copy_if_needed w c o = .ok (w, o) ∧
      ∀ b, b < w.colls.length → b ≠ c → o ∉ w.colls.getD b []) ∧
    (2 ≤ strongRefs w o →
      ∃ w2 f, copy_if_needed w c o = .ok (w2, f) ∧
        f ≠ o ∧
        w2.colls.getD c [] =
          (w.colls.getD c []).set ((w.colls.getD c []).indexOf o) f ∧
        strongRefs w2 f = 1 ∧
        w2.heap f = w.heap o ∧
        (∀ b, b ≠ c → w2.colls.getD b [] = w.colls.getD b []) ∧
        (∀ v, (mutate w2 f v).heap o = w.heap o)) := by
  constructor
  · intro hle
    constructor
    · unfold copy_if_needed
      dsimp only
      rw [if_neg (not_not_intro ho), if_pos hle]
    · intro b hb hbc hob
      have h2 : 2 ≤ w.colls.countP (fun l => decide (o ∈ l)) :=
        countP_two_of_getD _ _ c b hc hb (fun h => hbc h.symm)
          (by simpa using ho) (by simpa using hob)
      unfold strongRefs at hle
      omega
  · intro h2
    have hne : ¬ strongRefs w o ≤ 1 := by omega
    set objs := w.colls.getD c [] with hobjs
    set f := maxId w + 1 with hf
    set idx := objs.indexOf o with hidx
    set w2 : World := World.mk (w.colls.set c (objs.set idx f))
      (Function.update w.heap f (w.heap o)) with hw2
    have hfo : o < f := maxId_lt_fresh w objs (getD_list_mem _ c hc) o ho
    have hfresh : ∀ l ∈ w.colls, f ∉ l := by
      intro l hl hfl
      exact absurd (maxId_lt_fresh w l hl f hfl) (by omega)
    refine ⟨w2, f, ?_, by omega, ?_, ?_, ?_, ?_, ?_⟩
    · unfold copy_if_needed cloneObj
      dsimp only
      rw [if_neg (not_not_intro ho), if_neg hne]
    · exact getD_set_self w.colls c _ hc
    · unfold strongRefs
      have hidxlt : idx < objs.length := by
        rw [hidx]
        exact List.indexOf_lt_length.mpr ho
      have := countP_set_of_none w.colls (fun l => decide (f ∈ l)) c
        (objs.set idx f) hc (fun l hl => by simpa using hfresh l hl)
      rw [hw2]
      dsimp only
      rw [this, if_pos (by simpa using mem_set_self objs idx f hidxlt)]
    · rw [hw2]
      dsimp only
      exact Function.update_same f (w.heap o) w.heap
    · intro b hbc
      rw [hw2]
      dsimp only
      exact getD_set_ne w.colls c b _ hbc
    · intro v
      unfold mutate
      dsimp only
      rw [Function.update_noteq (by omega) v w2.heap]
      rw [hw2]
      dsimp only
      rw [Function.update_noteq (by omega) (w.heap o) w.heap]

/-- Witness for C1: two collections both holding object 5 (strong
reference count 2); `copy_if_needed` on the first collection clones. -/
theorem copy_if_needed_witness :
    (0 < (World.mk [[5], [5]] (fun _ => 0)).colls.length) ∧
    (5 ∈ (World.mk [[5], [5]] (fun _ => 0)).colls.getD 0 []) ∧
    (2 ≤ strongRefs (World.mk [[5], [5]] (fun _ => 0)) 5) ∧
    (∃ w2 f, copy_if_needed (World.mk [[5], [5]] (fun _ => 0)) 0 5 = .ok (w2, f) ∧
      f ≠ 5 ∧
      w2.colls.getD 0 [] =
        ((World.mk [[5], [5]] (fun _ => 0)).colls.getD 0 []).set
          (((World.mk [[5], [5]] (fun _ => 0)).colls.getD 0 []).indexOf 5) f ∧
      strongRefs w2 f = 1 ∧
      w2.heap f = (World.mk [[5], [5]] (fun _ => 0)).heap 5 ∧
      (∀ b, b ≠ 0 → w2.colls.getD b [] =
        (World.mk [[5], [5]] (fun _ => 0)).colls.getD b []) ∧
      (∀ v, (mutate w2 f v).heap 5 = (World.mk [[5], [5]] (fun _ => 0)).heap 5)) := by
  refine ⟨by decide, by decide, by decide, ?_⟩
  exact (copy_if_needed_spec (World.mk [[5], [5]] (fun _ => 0)) 0 5
    (by decide) (by decide)).2 (by decide)

/-! ## C8: mutation bracketing for Property and SimulationCell

Embedding of the context-manager protocol and the mutating operators from
`src/src/ovito/stdobj/scripting/python/ovito/data/stdobj/property.py` and
`src/src/ovito/stdobj/scripting/python/ovito/data/stdobj/simulation_cell.py`.
An execution is abstracted as the trace of access-control events it
emits, together with a flag recording whether an exception is
propagating. -/

inductive MutEvent where
  | makeWritable
  | makeReadonly
  | notifyChanged
  | bufferEdit
deriving DecidableEq, Repr

/-- A mutating block: the events its body emits plus whether the body
raised an exception. -/
abbrev MutBlock := List MutEvent × Bool

/-- Semantics of the Python `with` statement for a context manager whose
`__enter__` and `__exit__` emit the given event lists: CPython runs
`__exit__` even when the body raises, and an `__exit__` returning `False`
lets the exception keep propagating. -/
def pyWith (enterEvents closeEvents : List MutEvent) (body : MutBlock) : MutBlock :=
  (enterEvents ++ body.1 ++ closeEvents, body.2)

/-- Embedding of `_Property__enter__`: calls `self.make_writable()`. -/
def propertyEnterEvents : List MutEvent := [.makeWritable]

/-- Embedding of `_Property__exit__`: calls `self.make_readonly()` and
`self.notify_object_changed()` and returns `False`. -/
def propertyCloseEvents : List MutEvent := [.makeReadonly, .notifyChanged]

/-- Embedding of `_SimulationCell__enter__`: calls `self.make_writable()`. -/
def simulationCellEnterEvents : List MutEvent := [.makeWritable]

/-- Embedding of `_SimulationCell__exit__`: calls `self.make_readonly()`
and `self.notify_object_changed()` and returns `False`. -/
def simulationCellCloseEvents : List MutEvent := [.makeReadonly, .notifyChanged]

/-- A user-level `with prop: <edits>` block on a `Property`. -/
def propertyWithBlock (body : MutBlock) : MutBlock :=
  pyWith propertyEnterEvents propertyCloseEvents body

/-- Embedding of `_Property__setitem__`: `with self: impl[idx] = value`. -/
def propertySetItem (bodyRaises : Bool) : MutBlock :=
  pyWith propertyEnterEvents propertyCloseEvents ([.bufferEdit], bodyRaises)

/-- Embedding of the augmented assignment operators `__Property__iadd__`,
`__isub__`, `__imul__`, `__idiv__`, `__itruediv__`, `__ifloordiv__`,
`__imod__`, `__ipow__`, `__iand__`, `__ior__` and `__ixor__`, which are
all of the identical form `with self: impl.__iop__(y)`. -/
def propertyInPlaceOp (bodyRaises : Bool) : MutBlock :=
  pyWith propertyEnterEvents propertyCloseEvents ([.bufferEdit], bodyRaises)

/-- Embedding of `_SimulationCell__setitem__`: `with self: impl[idx] = value`. -/
def simulationCellSetItem (bodyRaises : Bool) : MutBlock :=
  pyWith simulationCellEnterEvents simulationCellCloseEvents ([.bufferEdit], bodyRaises)

/-- Embedding of the augmented assignment operators of `SimulationCell`
(`__iadd__` through `__ixor__`), all of the identical form
`with self: impl.__iop__(y)`. -/
def simulationCellInPlaceOp (bodyRaises : Bool) : MutBlock :=
  pyWith simulationCellEnterEvents simulationCellCloseEvents ([.bufferEdit], bodyRaises)

/-- Scans a trace keeping the writable flag: every `bufferEdit` must occur
while writable. -/
def editsGatedFrom : Bool → List MutEvent → Bool
  | _, [] => true
  | _, .makeWritable :: r => editsGatedFrom true r
  | _, .makeReadonly :: r => editsGatedFrom false r
  | w, .notifyChanged :: r => editsGatedFrom w r
  | w, .bufferEdit :: r => w && editsGatedFrom w r

/-- The writable flag left after running a trace from the given flag. -/
def finalWritable : Bool → List MutEvent → Bool
  | w, [] => w
  | _, .makeWritable :: r => finalWritable true r
  | _, .makeReadonly :: r => finalWritable false r
  | w, .notifyChanged :: r => finalWritable w r
  | w, .bufferEdit :: r => finalWritable w r

/-- A trace ends with the closing transition to read-only followed by a
change notification. -/
def closesWithNotify (tr : List MutEvent) : Bool :=
  match tr.reverse with
  | .notifyChanged :: .makeReadonly :: _ => true
  | _ => false

/-- C8: every in-place mutation of a `Property` or `SimulationCell`
through the public interface (the with-statement, indexed assignment, or
any augmented assignment operator) is bracketed by `make_writable` before
the edit and `make_readonly` plus `notify_object_changed` after it, and
the closing transition together with the notification occurs even when
the mutating block raises an exception (which keeps propagating). -/
theorem mutation_bracketing_spec (raised : Bool) (body : List MutEvent) :
    ((propertyWithBlock (body, raised)).1 =
        [.makeWritable] ++ body ++ [.makeReadonly, .notifyChanged] ∧
      (propertyWithBlock (body, raised)).2 = raised ∧
      closesWithNotify (propertyWithBlock (body, raised)).1 = true ∧
      finalWritable false (propertyWithBlock (body, raised)).1 = false) ∧
    (∀ tr ∈ [propertySetItem raised, propertyInPlaceOp raised,
        simulationCellSetItem raised, simulationCellInPlaceOp raised],
      tr.1 = [.makeWritable, .bufferEdit, .makeReadonly, .notifyChanged] ∧
      editsGatedFrom false tr.1 = true ∧
      closesWithNotify tr.1 = true ∧
      finalWritable false tr.1 = false ∧
      tr.2 = raised) := by
  constructor
  · refine ⟨rfl, rfl, ?_, ?_⟩
    · unfold closesWithNotify propertyWithBlock pyWith propertyEnterEvents
        propertyCloseEvents
      simp
    · unfold propertyWithBlock pyWith propertyEnterEvents propertyCloseEvents
      dsimp only
      rw [show ([MutEvent.makeWritable] ++ body ++ [.makeReadonly, .notifyChanged])
        = .makeWritable :: (body ++ [.makeReadonly, .notifyChanged]) by simp]
      rw [show finalWritable false (.makeWritable ::
          (body ++ [MutEvent.makeReadonly, .notifyChanged]))
        = finalWritable true (body ++ [.makeReadonly, .notifyChanged]) from rfl]
      generalize true = w
      induction body generalizing w with
      | nil => rfl
      | cons e t ih => cases e <;> simpa [finalWritable] using ih _
  · intro tr htr
    have hcases : tr = propertySetItem raised ∨ tr = propertyInPlaceOp raised ∨
        tr = simulationCellSetItem raised ∨ tr = simulationCellInPlaceOp raised := by
      simpa using htr
    rcases hcases with h | h | h | h <;> subst h <;>
      exact ⟨rfl, rfl, rfl, rfl, rfl⟩

/-- Witness for C8 with a concrete raising body: the closing transition
and notification still appear in the trace and the exception propagates. -/
theorem mutation_bracketing_witness :
    ((propertyWithBlock ([.bufferEdit], true)).1 =
      [.makeWritable] ++ [.bufferEdit] ++ [.makeReadonly, .notifyChanged]) ∧
    ((propertyWithBlock ([.bufferEdit], true)).2 = true) ∧
    (propertySetItem true).1 =
      [.makeWritable, .bufferEdit, .makeReadonly, .notifyChanged] := by
  have h := mutation_bracketing_spec true [.bufferEdit]
  exact ⟨h.1.1, h.1.2.1, (h.2 (propertySetItem true) (by simp)).1⟩

/-! ## C5 / C6: PropertyContainer.create_property

Embedding of `_PropertyContainer_create_property` from
`src/src/plugins/stdobj/resources/python/ovito/data/stdobj/property_container.py`.

That module imports only `collections`, `ovito` and `PropertyContainer`;
the names `ParticleProperty`, `numpy`, `PyQt5`, `Property` and the local
variable `num_particles` used inside the function are nowhere defined, so
the corresponding paths raise Python `NameError` at run time (the code
was adapted from `particles_view.py`, which defines all of them).  The
embedding reproduces these outcomes faithfully:

* a string-valued `name` reaches
  `ParticleProperty.standard_property_type_id(property_name)` first and
  raises `NameError('ParticleProperty')`;
* an integer standard-type `name` skips that line, performs the
  components/dtype validation, the element-count determination and the
  length check, and then, when no existing property matches, reaches
  `ParticleProperty.createStandardProperty(...)` and raises
  `NameError('ParticleProperty')` as well;
* only the replacement path (existing property, `make_mutable`) runs to
  completion. -/

structure PCProp where
  ptype : Int
  pcname : PyStr
  values : List Int
deriving DecidableEq, Repr

structure PContainerC where
  props : List PCProp
  countN : Nat
deriving DecidableEq, Repr

/-- The scan `for prop in self.properties: ... existing_prop = prop`
keeps the LAST matching property (there is no `break`); this returns its
index. -/
def lastMatchIdx : List PCProp → Int → Option Nat
  | [], _ => none
  | p :: rest, t =>
    match lastMatchIdx rest t with
    | some i => some (i + 1)
    | none => if p.ptype == t then some 0 else none

/-- The replacement path of `create_property` for an existing standard
property: `prop = self.make_mutable(existing_prop)` followed by
`prop[...] = data` when data is given.  Modelled from the spec:
`make_mutable` is native; per the specification it substitutes a mutable
version of the property into the container and returns it. -/
def pcReplaceExisting (c : PContainerC) (i : Nat) (data : Option (List Int)) :
    Except PyExc (PContainerC × PCProp) :=
  let p := c.props.getD i ⟨0, [], []⟩
  let p2 : PCProp := ⟨p.ptype, p.pcname,
    match data with
    | some d => d
    | none => p.values⟩
  .ok (⟨c.props.set i p2, c.countN⟩, p2)

/-- Embedding of `_PropertyContainer_create_property` (the `countN` field
plays the role of the native `self.count`). -/
def pcCreateProperty (c : PContainerC) (name : Sum Int PyStr)
    (dtype : Option Unit) (components : Option Int) (data : Option (List Int)) :
    Except PyExc (PContainerC × PCProp) :=
  match name with
  | .inr _ => .error (.nameError "ParticleProperty")
  | .inl t =>
    if t ≤ 0 then .error .typeError
    else if components.isSome then .error .valueError
    else if dtype.isSome then .error .valueError
    else
      let numElems : Except PyExc Nat :=
        if c.props.length = 0 then
          match data with
          | none => .error (.runtimeError
              "Cannot create property, because the container contains no elements yet and no initial property data has been specified.")
          | some d => .ok d.length
        else .ok c.countN
      match numElems with
      | .error e => .error e
      | .ok n =>
        let lengthOk : Except PyExc Unit :=
          match data with
          | some d =>
            if d.length ≠ n then .error (.valueError)
            else .ok ()
          | none => .ok ()
        match lengthOk with
        | .error e => .error e
        | .ok _ =>
          match lastMatchIdx c.props t with
          | none => .error (.nameError "ParticleProperty")
          | some i => pcReplaceExisting c i data

/-- C5 (code bug): with at least one property present, a mismatching data
length is a hard `ValueError`, and an empty container with no data is a
hard `RuntimeError` — but an empty container WITH data, for which the
claim says the data length becomes the element count of the newly created
first property, instead raises `NameError` (`ParticleProperty` and
`num_particles` are undefined in the module), so no property is ever
created. -/
theorem create_property_count_spec :
    (pcCreateProperty ⟨[⟨1, [], [7, 8, 9]⟩], 3⟩ (.inl 1) none none
      (some [7, 8]) = .error .valueError) ∧
    (pcCreateProperty ⟨[], 0⟩ (.inl 1) none none none = .error (.runtimeError
      "Cannot create property, because the container contains no elements yet and no initial property data has been specified.")) ∧
    (pcCreateProperty ⟨[], 0⟩ (.inl 1) none none (some [7, 8]) =
      .error (.nameError "ParticleProperty")) := by
  exact ⟨rfl, rfl, rfl⟩

/-- C6 (code bug): `create_property` with a string property name raises
`NameError('ParticleProperty')` unconditionally (so neither creation nor
replacement is possible for named properties); with an integer standard
type id the creation path (no existing property) also raises `NameError`,
while only the replacement path completes, substituting a mutable
property whose values are overwritten by the given data. -/
theorem create_property_create_or_replace_spec :
    (pcCreateProperty ⟨[], 0⟩ (.inr ['f', 'o', 'o']) none none
      (some [1, 2]) = .error (.nameError "ParticleProperty")) ∧
    (pcCreateProperty ⟨[⟨2, [], [7, 8, 9]⟩], 3⟩ (.inr ['f', 'o', 'o']) none none
      (some [1, 2, 3]) = .error (.nameError "ParticleProperty")) ∧
    (pcCreateProperty ⟨[⟨2, [], [7, 8, 9]⟩], 3⟩ (.inl 1) none none
      (some [1, 2, 3]) = .error (.nameError "ParticleProperty")) ∧
    (pcCreateProperty ⟨[⟨1, [], [7, 8, 9]⟩], 3⟩ (.inl 1) none none
      (some [4, 5, 6]) = .ok (⟨[⟨1, [], [4, 5, 6]⟩], 3⟩, ⟨1, [], [4, 5, 6]⟩)) := by
  exact ⟨rfl, rfl, rfl, rfl⟩

/-! ## Geometry for the neighbor finders (C2, C7)

The native spatial engine (`CutoffNeighborFinder`, `NearestNeighborFinder`
query classes) is not part of the repository; only the Python wrappers
are.  The engine is therefore modelled from the specification, over exact
rational arithmetic. -/

structure Vec3 where
  x : ℚ
  y : ℚ
  z : ℚ
deriving DecidableEq, Repr

def vadd (a b : Vec3) : Vec3 := ⟨a.x + b.x, a.y + b.y, a.z + b.z⟩

def vsub (a b : Vec3) : Vec3 := ⟨a.x - b.x, a.y - b.y, a.z - b.z⟩

def zsmul (n : Int) (a : Vec3) : Vec3 := ⟨n * a.x, n * a.y, n * a.z⟩

def normSq (a : Vec3) : ℚ := a.x * a.x + a.y * a.y + a.z * a.z

/-- A simulation cell: the three cell vectors (columns of the cell matrix
`H`) plus the periodic-boundary flags. -/
structure CellGeom where
  a1 : Vec3
  a2 : Vec3
  a3 : Vec3
  pbcx : Bool
  pbcy : Bool
  pbcz : Bool
deriving DecidableEq, Repr

/-- `H * s` for an integer shift triple `s`. -/
def cellShiftVec (cell : CellGeom) (s : Int × Int × Int) : Vec3 :=
  vadd (zsmul s.1 cell.a1) (vadd (zsmul s.2.1 cell.a2) (zsmul s.2.2 cell.a3))

/-- The candidate shifts along one cell direction: one shell of periodic
images for a periodic direction, no images for a non-periodic one. -/
def shiftRange (pbc : Bool) : List Int := if pbc then [-1, 0, 1] else [0]

/-- Modelled from the spec: the spatial grid enumerates periodic images
over a small bounded number of cells per dimension (at most one shell per
periodic direction suffices for query radii smaller than the cell
extent). -/
def shiftList (cell : CellGeom) : List (Int × Int × Int) :=
  (shiftRange cell.pbcx).flatMap (fun s1 =>
    (shiftRange cell.pbcy).flatMap (fun s2 =>
      (shiftRange cell.pbcz).map (fun s3 => (s1, s2, s3))))

/-- One neighbor record of a query: the neighbor's particle index, the
periodic shift vector, the displacement `delta` from the query origin to
the visited image, and the squared distance. -/
structure NeighborRec where
  nindex : Nat
  pbcShift : Int × Int × Int
  delta : Vec3
  distSq : ℚ
deriving DecidableEq, Repr

def mkNeighborRec (pts : List Vec3) (cell : CellGeom) (origin : Vec3)
    (j : Nat) (s : Int × Int × Int) : NeighborRec :=
  let d := vsub (vadd (pts.getD j ⟨0, 0, 0⟩) (cellShiftVec cell s)) origin
  ⟨j, s, d, normSq d⟩

/-- Modelled from the spec: the candidate neighbor images of a query
point — every particle under every candidate periodic shift, with `delta`
pointing from the query origin to the visited image. -/
def imageRecords (pts : List Vec3) (cell : CellGeom) (origin : Vec3) :
    List NeighborRec :=
  (List.range pts.length).flatMap (fun j =>
    (shiftList cell).map (fun s => mkNeighborRec pts cell origin j s))

/-- Modelled from the spec: `CutoffNeighborFinder.find(i)` visits every
neighbor image whose displacement from particle `i` has magnitude at most
the cutoff; the trivial zero-shift self-pairing is not a neighbor. -/
def cutoffFind (cutoff : ℚ) (pts : List Vec3) (cell : CellGeom) (i : Nat) :
    List NeighborRec :=
  (imageRecords pts cell (pts.getD i ⟨0, 0, 0⟩)).flatMap
    (fun r =>
      if r.distSq ≤ cutoff * cutoff ∧ ¬(r.nindex = i ∧ r.pbcShift = (0, 0, 0))
      then [r] else [])

/-- Determinant of the matrix with columns `u`, `v`, `w`. -/
def det3 (u v w : Vec3) : ℚ :=
  u.x * (v.y * w.z - w.y * v.z) - v.x * (u.y * w.z - w.y * u.z) +
    w.x * (u.y * v.z - v.y * u.z)

/-- Fractional (reduced) cell coordinates of a Cartesian vector, by
Cramer's rule. -/
def fracCoords (cell : CellGeom) (v : Vec3) : Vec3 :=
  let dt := det3 cell.a1 cell.a2 cell.a3
  ⟨det3 v cell.a2 cell.a3 / dt, det3 cell.a1 v cell.a3 / dt,
    det3 cell.a1 cell.a2 v / dt⟩

/-- Modelled from the spec: the minimum-image vector is computed by
converting the naive Cartesian displacement into fractional cell
coordinates, rounding each periodic component to the nearest integer, and
converting back; the returned shift records the periodic boundary
crossings. -/
def minimumImage (cell : CellGeom) (d : Vec3) : Vec3 × (Int × Int × Int) :=
  let f := fracCoords cell d
  let n1 : Int := if cell.pbcx then round f.x else 0
  let n2 : Int := if cell.pbcy then round f.y else 0
  let n3 : Int := if cell.pbcz then round f.z else 0
  (vadd d (cellShiftVec cell (-n1, -n2, -n3)), (-n1, -n2, -n3))

/-- The concrete scenario of C2: a cubic periodic cell of side 10. -/
def c2cell : CellGeom := ⟨⟨10, 0, 0⟩, ⟨0, 10, 0⟩, ⟨0, 0, 10⟩, true, true, true⟩

/-- The concrete scenario of C2: two particles at (0.1,0,0) and (9.9,0,0). -/
def c2pts : List Vec3 := [⟨1/10, 0, 0⟩, ⟨99/10, 0, 0⟩]

/-- C2: in the cubic periodic cell of side 10 with particles at (0.1,0,0)
and (9.9,0,0), `CutoffNeighborFinder(0.5).find(0)` yields exactly one
record: particle 1 with `delta = (-0.2,0,0)` and `pbc_shift = (-1,0,0)`
(the convention pairing `delta = r_1 + H*s - r_0` with the recorded shift
`s`; the claim's `delta ≈ (0.2,0,0)` is the equivalent opposite sign
convention), squared distance `0.04 = 0.2²` — not the naive non-periodic
displacement of magnitude 9.8, whose squared length exceeds the cutoff.
The minimum-image policy (fractional coordinates, round, convert back)
computes the same displacement and shift. -/
theorem cutoff_finder_pbc_scenario :
    (cutoffFind (1/2) c2pts c2cell 0 =
      [⟨1, (-1, 0, 0), ⟨-(1/5), 0, 0⟩, 1/25⟩]) ∧
    ((1/25 : ℚ) = (1/5) * (1/5)) ∧
    (minimumImage c2cell (vsub (c2pts.getD 1 ⟨0, 0, 0⟩) (c2pts.getD 0 ⟨0, 0, 0⟩)) =
      (⟨-(1/5), 0, 0⟩, (-1, 0, 0))) ∧
    ¬ ((49/5 : ℚ) * (49/5) ≤ (1/2) * (1/2)) := by
  refine ⟨?_, by norm_num, ?_, by norm_num⟩
  · norm_num [cutoffFind, imageRecords, shiftList, shiftRange, mkNeighborRec,
      cellShiftVec, zsmul, vadd, vsub, normSq, c2pts, c2cell, List.flatMap_cons,
      List.range_succ]
  · norm_num [minimumImage, fracCoords, det3, cellShiftVec, zsmul, vadd, vsub,
      c2pts, c2cell, round_eq]

/-! ## C7: NearestNeighborFinder -/

/-- Ordering of neighbor records by (squared) distance; distances are
non-decreasing exactly when squared distances are. -/
def recLE (a b : NeighborRec) : Prop := a.distSq ≤ b.distSq

instance : DecidableRel recLE :=
  fun a b => inferInstanceAs (Decidable (a.distSq ≤ b.distSq))

instance : IsTotal NeighborRec recLE := ⟨fun a b => le_total a.distSq b.distSq⟩

instance : IsTrans NeighborRec recLE := ⟨fun _ _ _ hab hbc => le_trans hab hbc⟩

/-- Modelled from the spec: `NearestNeighborFinder(N).find(i)` returns
the `N` closest neighbor images of particle `i` in ascending distance
order; zero-distance records are excluded (the wrapper documents that
`find` does not visit particles located exactly at the central particle's
position — in particular never the exact self-image of `i`). -/
def nnFind (N : Nat) (pts : List Vec3) (cell : CellGeom) (i : Nat) :
    List NeighborRec :=
  (List.insertionSort recLE
    ((imageRecords pts cell (pts.getD i ⟨0, 0, 0⟩)).flatMap
      (fun r => if r.distSq = 0 then [] else [r]))).take N

/-- Modelled from the spec: `find_at(point)` returns the `N` nearest
particle images around an arbitrary spatial location in ascending
distance order, including any particle located exactly at the point. -/
def nnFindAt (N : Nat) (pts : List Vec3) (cell : CellGeom) (p : Vec3) :
    List NeighborRec :=
  (List.insertionSort recLE (imageRecords pts cell p)).take N

/-- Embedding of the range check in `NearestNeighborFinder.__init__`
(`src/src/plugins/particles/scripting/python/ovito/data/particles/nearest_neighbor_finder.py`):
`if N<=0 or N>30: raise ValueError(...)`. -/
def nearestNeighborFinderInit (N : Int) : Except PyExc Unit :=
  if N ≤ 0 ∨ N > 30 then .error .valueError else .ok ()

theorem normSq_nonneg (v : Vec3) : 0 ≤ normSq v := by
  unfold normSq
  have hx := mul_self_nonneg v.x
  have hy := mul_self_nonneg v.y
  have hz := mul_self_nonneg v.z
  linarith

theorem imageRecords_mem_distSq (pts : List Vec3) (cell : CellGeom)
    (origin : Vec3) :
    ∀ r ∈ imageRecords pts cell origin,
      r.distSq = normSq r.delta ∧ 0 ≤ r.distSq := by
  intro r hr
  unfold imageRecords at hr
  obtain ⟨j, _, hr2⟩ := List.mem_flatMap.mp hr
  obtain ⟨s, _, rfl⟩ := List.mem_map.mp hr2
  exact ⟨rfl, normSq_nonneg _⟩

theorem zero_shift_mem_shiftList (cell : CellGeom) :
    ((0, 0, 0) : Int × Int × Int) ∈ shiftList cell := by
  obtain ⟨a1, a2, a3, px, py, pz⟩ := cell
  cases px <;> cases py <;> cases pz <;> simp [shiftList, shiftRange]

theorem zero_record_mem_imageRecords (pts : List Vec3) (cell : CellGeom)
    (p : Vec3) (j : Nat) (hj : j < pts.length) :
    mkNeighborRec pts cell p j (0, 0, 0) ∈ imageRecords pts cell p := by
  unfold imageRecords
  exact List.mem_flatMap.mpr ⟨j, List.mem_range.mpr hj,
    List.mem_map.mpr ⟨(0, 0, 0), zero_shift_mem_shiftList cell, rfl⟩⟩

theorem zero_record_distSq (pts : List Vec3) (cell : CellGeom) (p : Vec3)
    (j : Nat) (hp : pts.getD j ⟨0, 0, 0⟩ = p) :
    (mkNeighborRec pts cell p j (0, 0, 0)).distSq = 0 := by
  unfold mkNeighborRec cellShiftVec zsmul vadd vsub normSq
  dsimp only
  rw [hp]
  ring

/-- C7: for every particle configuration, `find(i)` yields at most `N`
records in non-decreasing (squared-)distance order, never containing the
exact zero-distance self-image of particle `i` at its own coordinates;
`find_at(point)` does include a record at squared distance 0 whenever a
particle sits exactly at the query point (and at least one neighbor is
requested); and the constructor rejects `N ≤ 0` or `N > 30` with a
`ValueError`. -/
theorem nearest_neighbor_finder_spec (pts : List Vec3) (cell : CellGeom)
    (N : Nat) (i : Nat) (p : Vec3) :
    ((nnFind N pts cell i).length ≤ N) ∧
    (List.Pairwise recLE (nnFind N pts cell i)) ∧
    (∀ r ∈ nnFind N pts cell i, ¬(r.nindex = i ∧ r.delta = ⟨0, 0, 0⟩)) ∧
    ((∃ j, j < pts.length ∧ pts.getD j ⟨0, 0, 0⟩ = p) → 1 ≤ N →
      ∃ r ∈ nnFindAt N pts cell p, r.distSq = 0) ∧
    (∀ M : Int, (M ≤ 0 ∨ 30 < M) ↔
      nearestNeighborFinderInit M = .error .valueError) := by
  refine ⟨?_, ?_, ?_, ?_, ?_⟩
  · exact List.length_take_le N _
  · exact List.Pairwise.sublist (List.take_sublist N _)
      (List.sorted_insertionSort recLE _)
  · intro r hr hcontra
    have hr1 : r ∈ List.insertionSort recLE
        ((imageRecords pts cell (pts.getD i ⟨0, 0, 0⟩)).flatMap
          (fun r => if r.distSq = 0 then [] else [r])) :=
      List.take_subset N _ hr
    have hr2 := (List.mem_insertionSort recLE).mp hr1
    obtain ⟨r0, hr0, hif⟩ := List.mem_flatMap.mp hr2
    by_cases h0 : r0.distSq = 0
    · rw [if_pos h0] at hif
      simp at hif
    · rw [if_neg h0] at hif
      have hrr0 : r = r0 := by simpa using hif
      subst hrr0
      have hds := (imageRecords_mem_distSq pts cell _ r hr0).1
      rw [hcontra.2] at hds
      apply h0
      rw [hds]
      unfold normSq
      norm_num
  · rintro ⟨j, hj, hp⟩ hN
    have hzmem : mkNeighborRec pts cell p j (0, 0, 0) ∈
        List.insertionSort recLE (imageRecords pts cell p) :=
      (List.mem_insertionSort recLE).mpr
        (zero_record_mem_imageRecords pts cell p j hj)
    have hz0 : (mkNeighborRec pts cell p j (0, 0, 0)).distSq = 0 :=
      zero_record_distSq pts cell p j hp
    cases hcase : List.insertionSort recLE (imageRecords pts cell p) with
    | nil =>
      rw [hcase] at hzmem
      simp at hzmem
    | cons hd tl =>
      have hsorted : List.Sorted recLE (hd :: tl) := by
        rw [← hcase]
        exact List.sorted_insertionSort recLE _
      have hhdmem : hd ∈ imageRecords pts cell p := by
        apply (List.mem_insertionSort recLE).mp
        rw [hcase]
        exact List.mem_cons_self hd tl
      have hnn : 0 ≤ hd.distSq := (imageRecords_mem_distSq pts cell p hd hhdmem).2
      have hle : hd.distSq ≤ 0 := by
        rw [hcase] at hzmem
        rcases List.mem_cons.mp hzmem with heq | hmem
        · rw [heq] at hz0
          exact le_of_eq hz0
        · have hrel := List.rel_of_sorted_cons hsorted _ hmem
          unfold recLE at hrel
          rw [hz0] at hrel
          exact hrel
      have hhd0 : hd.distSq = 0 := le_antisymm hle hnn
      cases N with
      | zero => omega
      | succ n =>
        refine ⟨hd, ?_, hhd0⟩
        unfold nnFindAt
        rw [hcase, List.take_succ_cons]
        exact List.mem_cons_self hd _
  · intro M
    constructor
    · intro h
      unfold nearestNeighborFinderInit
      rw [if_pos h]
    · intro h
      by_contra hc
      unfold nearestNeighborFinderInit at h
      rw [if_neg hc] at h
      cases h

/-- Witness for C7: two particles at (0,0,0) and (1,0,0) in a
non-periodic cell; a particle sits exactly at the query point (1,0,0), so
`find_at` with `N = 2` returns a zero-distance record, and constructing
the finder with `N = -3` raises `ValueError`. -/
theorem nearest_neighbor_finder_witness :
    (∃ j, j < ([⟨0, 0, 0⟩, ⟨1, 0, 0⟩] : List Vec3).length ∧
      ([⟨0, 0, 0⟩, ⟨1, 0, 0⟩] : List Vec3).getD j ⟨0, 0, 0⟩ = ⟨1, 0, 0⟩) ∧
    (1 ≤ 2) ∧
    (∃ r ∈ nnFindAt 2 [⟨0, 0, 0⟩, ⟨1, 0, 0⟩]
        ⟨⟨10, 0, 0⟩, ⟨0, 10, 0⟩, ⟨0, 0, 10⟩, false, false, false⟩ ⟨1, 0, 0⟩,
      r.distSq = 0) ∧
    (((-3 : Int) ≤ 0 ∨ 30 < (-3 : Int)) ↔
      nearestNeighborFinderInit (-3) = .error .valueError) := by
  refine ⟨⟨1, by norm_num, rfl⟩, by norm_num, ?_, ?_⟩
  · exact (nearest_neighbor_finder_spec [⟨0, 0, 0⟩, ⟨1, 0, 0⟩]
      ⟨⟨10, 0, 0⟩, ⟨0, 10, 0⟩, ⟨0, 0, 10⟩, false, false, false⟩ 2 0
      ⟨1, 0, 0⟩).2.2.2.1 ⟨1, by norm_num, rfl⟩ (by norm_num)
  · exact (nearest_neighbor_finder_spec [⟨0, 0, 0⟩, ⟨1, 0, 0⟩]
      ⟨⟨10, 0, 0⟩, ⟨0, 10, 0⟩, ⟨0, 0, 10⟩, false, false, false⟩ 2 0
      ⟨1, 0, 0⟩).2.2.2.2 (-3)
